import Mathlib

/-!
Verification of `interactive_llm_chat.py` (hailo-apps simple_llm_chat).

This file gives a shallow embedding of the program's pure orchestration
logic — model file discovery, menu selection, the chat REPL's command
dispatch and transcript updates, and the main entry point's resource
lifecycle — and proves the specified properties about it.

External effects are modelled explicitly:
- directory contents are passed in as an optional list of file names
  (`none` = the directory does not exist);
- standard input is a list of lines;
- the opaque vendor runtime (`VDevice`, `LLM`) is modelled by outcome
  flags and by an event trace recording every call made to it.

Python string primitives (`strip`, `lower`, `int(...)`, slicing,
`startswith`, `in`, `split`, `pathlib` stems) are modelled character-wise
over `List Char`; `strip`/`lower`/`int` are modelled over the ASCII
character repertoire (the program's own literals are all ASCII).
-/

namespace InteractiveLlmChat

/-- ASCII whitespace, as removed by Python `str.strip()` (space, tab,
newline, carriage return, vertical tab, form feed).  Python also strips
some further Unicode whitespace; the model covers the ASCII repertoire. -/
def isSpaceChar (c : Char) : Bool :=
  c = ' ' || c = '\t' || c = '\n' || c = '\r' || c = '\x0b' || c = '\x0c'

/-- Python `str.strip()`: remove leading and trailing whitespace. -/
def pyStrip (s : String) : String :=
  ⟨List.rdropWhile isSpaceChar (s.data.dropWhile isSpaceChar)⟩

/-- Python `str.lower()`, character-wise; `Char.toLower` lowercases
exactly the ASCII letters, matching Python on the ASCII repertoire. -/
def pyLower (s : String) : String :=
  ⟨s.data.map Char.toLower⟩

/-- Python `s.startswith(pre)`. -/
def strStartsWith (s pre : String) : Bool :=
  pre.data.isPrefixOf s.data

/-- Python `s.endswith(suf)`. -/
def strEndsWith (s suf : String) : Bool :=
  suf.data.isSuffixOf s.data

/-- Substring occurrence over character lists (Python `sub in s`). -/
def subOccurs (sub : List Char) : List Char → Bool
  | [] => sub.isEmpty
  | c :: cs => sub.isPrefixOf (c :: cs) || subOccurs sub cs

/-- Python `sub in s` (substring containment). -/
def strContains (s sub : String) : Bool :=
  subOccurs sub.data s.data

/-- Python `s[n:]` (slicing by character index). -/
def pyDrop (s : String) (n : Nat) : String :=
  ⟨s.data.drop n⟩

/-- Index of the last occurrence of `c`, counting from offset `i`
(helper for Python `str.rfind` as used by `pathlib` stems). -/
def lastIdxAux (c : Char) : List Char → Nat → Option Nat
  | [], _ => none
  | x :: xs, i =>
    match lastIdxAux c xs (i + 1) with
    | some j => some j
    | none => if x = c then some i else none

/-- Python `pathlib.PurePath.stem` on a file name: the name without its
last suffix, where a dot at position 0 or at the very end does not start
a suffix. -/
def pyStem (s : String) : String :=
  match lastIdxAux '.' s.data 0 with
  | some i => if 0 < i ∧ i < s.data.length - 1 then ⟨s.data.take i⟩ else s
  | none => s

/-- Modelled from the spec: the constant `HAILO_FILE_EXTENSION` is
imported from the defines module, which is not part of the sources; the
spec's `--hef-path` flag and the auto-append fallback fix it as the
`.hef` model file extension. -/
def HAILO_FILE_EXTENSION : String := ".hef"

/-- The fixed LLM name markers from `get_downloaded_llm_models`. -/
def llm_patterns : List String :=
  ["qwen", "llama", "mistral", "gemma", "phi", "instruct", "chat", "coder"]

/-- The `models_dir.glob("*" + HAILO_FILE_EXTENSION)` membership test on a
file name: the name must end with the extension.  `pathlib.Path.glob`
matches dot-prefixed (hidden) names too, so no further restriction
applies. -/
def globMatches (name : String) : Bool :=
  strEndsWith name HAILO_FILE_EXTENSION

/-- The filter of `get_downloaded_llm_models`: the lowercased stem
contains at least one marker substring. -/
def llmNameMatches (name : String) : Bool :=
  llm_patterns.any (fun p => strContains (pyLower (pyStem name)) p)

/-- The sort key `lambda p: p.stem.lower()`. -/
def stemKey (name : String) : String := pyLower (pyStem name)

/-- Ordering relation induced by the sort key (Python `sorted` sorts
ascending by key; insertion sort is a stable sort, like Python's). -/
abbrev stemKeyLe (a b : String) : Prop := stemKey a ≤ stemKey b

/-- Model of `get_downloaded_llm_models`: the directory state is passed in as
`none` (directory does not exist) or `some entries` (the file names in
it, in the unspecified order `glob` yields them). -/
def get_downloaded_llm_models (modelsDir : Option (List String)) : List String :=
  match modelsDir with
  | none => []
  | some entries =>
    let models := (entries.filter globMatches).filter llmNameMatches
    List.insertionSort stemKeyLe models

/-! ### Python `int(...)` parsing (for `select_model`) -/

/-- Value of an ASCII decimal digit. -/
def digitVal (c : Char) : Option Nat :=
  if c.isDigit then some (c.toNat - 48) else none

/-- Digits after the first one: Python `int` accepts single underscores
strictly between digits. -/
def parseDigitsTail (acc : Nat) : List Char → Option Nat
  | [] => some acc
  | c :: cs =>
    if c = '_' then
      match cs with
      | [] => none
      | d :: cs2 =>
        match digitVal d with
        | some v => parseDigitsTail (acc * 10 + v) cs2
        | none => none
    else
      match digitVal c with
      | some v => parseDigitsTail (acc * 10 + v) cs
      | none => none

/-- A non-empty run of digits (with inner underscores). -/
def parseDigits : List Char → Option Nat
  | [] => none
  | c :: cs =>
    match digitVal c with
    | some v => parseDigitsTail v cs
    | none => none

/-- Python `int(s)`: optional surrounding whitespace, optional sign, a
non-empty digit run; anything else raises `ValueError`, modelled as
`none`.  Unicode digits are not modelled (the program's inputs of
interest are ASCII). -/
def pyParseInt (s : String) : Option Int :=
  match (pyStrip s).data with
  | '+' :: rest => (parseDigits rest).map (fun n => (n : Int))
  | '-' :: rest => (parseDigits rest).map (fun n => -(n : Int))
  | l => (parseDigits l).map (fun n => (n : Int))

/-! ### Model selector (`select_model`) -/

/-- Result of the selection loop: `exit0` models `sys.exit(0)` on the
quit token; `picked m` models `return models[idx]`. -/
inductive SelOutcome where
  | exit0
  | picked (m : String)
deriving DecidableEq

/-- Model of `select_model`, driven by the list of stdin lines; `none` means the
input lines were exhausted without a decision (the loop would block). -/
def select_model (models : List String) : List String → Option SelOutcome
  | [] => none
  | inp :: rest =>
    let choice := pyStrip inp
    if pyLower choice = "q" then some SelOutcome.exit0
    else
      match pyParseInt choice with
      | none => select_model models rest
      | some n =>
        let idx : Int := n - 1
        if 0 ≤ idx ∧ idx < (models.length : Int) then
          some (SelOutcome.picked (models.getD idx.toNat ""))
        else select_model models rest

/-! ### Chat loop (`interactive_chat`) -/

/-- Turn roles.  In the source a turn is a dict with a `role` key and a
`content` list holding a single text item; the content wrapper is
collapsed to the text itself. -/
inductive Role where
  | system
  | user
  | assistant
deriving DecidableEq, BEq

/-- One transcript turn. -/
structure Turn where
  role : Role
  text : String
deriving DecidableEq

def systemTurn (p : String) : Turn := ⟨Role.system, p⟩

def userTurn (t : String) : Turn := ⟨Role.user, t⟩

def assistantTurn (t : String) : Turn := ⟨Role.assistant, t⟩

/-- The chat loop's mutable state: the active system prompt and the
transcript (`conversation`). -/
structure ChatState where
  systemPrompt : String
  conversation : List Turn
deriving DecidableEq

/-- The state at loop entry: a single system turn. -/
def initChat (p : String) : ChatState := ⟨p, [systemTurn p]⟩

/-- The trailing-metadata marker of `response.split(...)[0]` at line 137:
the ten characters dot, space, open bracket, open brace, single quote,
`t`, `y`, `p`, `e`, single quote.  Spelled via character codes. -/
def metadataMarker : String :=
  String.mk ([46, 32, 91, 123, 39, 116, 121, 112, 101, 39].map Char.ofNat)

/-- Python `text.split(sep)[0]` for a fixed non-empty separator: the portion of
the text strictly before the first occurrence of `sep` (the whole text
when `sep` does not occur). -/
def splitHead (sub : List Char) : List Char → List Char
  | [] => []
  | c :: cs => if sub.isPrefixOf (c :: cs) then [] else c :: splitHead sub cs

/-- The response post-processing `response.split(". [\x7b'type'")[0]`. -/
def cleanResponse (r : String) : String :=
  ⟨splitHead metadataMarker.data r.data⟩

/-- The command dispatch of the chat loop body (lines 90-124): what the
stripped input line is taken to be. -/
inductive Cmd where
  | empty
  | quit
  | clear
  | sysSet (ns : String)
  | sysHint
  | utter (u : String)
deriving DecidableEq

/-- Classification of one raw input line, mirroring the if/elif chain:
strip; empty → no-op; lowercase in `/quit`,`/exit` → quit; lowercase
equal `/clear` → clear; lowercase starts with `/system ` → set prompt
to the stripped remainder (usage hint when that is empty); otherwise a
user utterance. -/
def classify (s : String) : Cmd :=
  let u := pyStrip s
  if u = "" then Cmd.empty
  else if pyLower u = "/quit" ∨ pyLower u = "/exit" then Cmd.quit
  else if pyLower u = "/clear" then Cmd.clear
  else if strStartsWith (pyLower u) "/system " then
    let ns := pyStrip (pyDrop u 8)
    if ns = "" then Cmd.sysHint else Cmd.sysSet ns
  else Cmd.utter u

/-- Observable effects of one loop iteration: calls into the opaque
`llm` handle and the user-visible prints that the claims mention. -/
inductive ChatEv where
  | clearContextCall
  | confirmCleared
  | confirmSystem (p : String)
  | usageHint
  | generateCall (conv : List Turn)
  | assistantPrinted (t : String)
  | genErrorReported
  | goodbye
deriving DecidableEq

/-- One unit of loop input: a stdin line together with the outcome the
opaque generation call would have on this iteration (`some text` =
`generate_all` returns `text`; `none` = it raises), or a keyboard
interrupt. -/
inductive ChatInput where
  | line (s : String) (gen : Option String)
  | interrupt
deriving DecidableEq

/-- Effect of one classified command on the loop state (lines 92-153).
First component `none` means the loop terminates. -/
def stepCmd (st : ChatState) (c : Cmd) (gen : Option String) :
    Option ChatState × List ChatEv :=
  match c with
  | Cmd.empty => (some st, [])
  | Cmd.quit => (none, [ChatEv.goodbye])
  | Cmd.clear =>
    (some ⟨st.systemPrompt, [systemTurn st.systemPrompt]⟩,
     [ChatEv.clearContextCall, ChatEv.confirmCleared])
  | Cmd.sysSet ns =>
    (some ⟨ns, [systemTurn ns]⟩,
     [ChatEv.clearContextCall, ChatEv.confirmSystem ns])
  | Cmd.sysHint => (some st, [ChatEv.usageHint])
  | Cmd.utter u =>
    let conv1 := st.conversation ++ [userTurn u]
    match gen with
    | some r =>
      let clean := cleanResponse r
      (some ⟨st.systemPrompt, conv1 ++ [assistantTurn clean]⟩,
       [ChatEv.generateCall conv1, ChatEv.assistantPrinted clean])
    | none =>
      (some ⟨st.systemPrompt, conv1⟩,
       [ChatEv.generateCall conv1, ChatEv.genErrorReported])

/-- One iteration of `interactive_chat`'s `while True` body. -/
def chatStep (st : ChatState) : ChatInput → Option ChatState × List ChatEv
  | ChatInput.interrupt => (none, [ChatEv.goodbye])
  | ChatInput.line s gen => stepCmd st (classify s) gen

/-- Running the loop over a list of inputs, returning the state at
termination (or when input is exhausted). -/
def chatRun : ChatState → List ChatInput → ChatState
  | st, [] => st
  | st, i :: rest =>
    match chatStep st i with
    | (none, _) => st
    | (some st2, _) => chatRun st2 rest

/-- The transcript invariant: exactly one system turn, placed first. -/
def transcriptInv (conv : List Turn) : Prop :=
  conv.countP (fun t => t.role == Role.system) = 1 ∧
  ∃ t ts, conv = t :: ts ∧ t.role = Role.system

/-! ### Entry point (`main`): resolution, bootstrap, teardown -/

/-- Events of `main`: discovery/selection reports, bootstrap steps, and
the teardown calls of the `finally` block. -/
inductive MEvent where
  | errNoModels
  | errModelNotFound
  | menuShown
  | autoSelected (m : String)
  | pickedFromMenu (m : String)
  | bootVDevice
  | bootLLM
  | chatStarted
  | errMain
  | tdClearContext
  | tdLLMRelease
  | tdVDeviceRelease
  | tdWarnLLM
  | tdWarnVDevice
deriving DecidableEq

/-- The `finally` block (lines 222-234).  Arguments: whether each handle
was acquired (is non-`None`), and whether each runtime call raises.  An
event records that a call was attempted (it may then raise); the two
`try/except` wrappers log a warning and continue.  Inside the model
wrapper, a raising `clear_context` skips `llm.release()`; the device
wrapper runs regardless. -/
def teardown (llmAcq vdevAcq clearFails llmRelFails vdevRelFails : Bool) :
    List MEvent :=
  (if llmAcq then
    if clearFails then [MEvent.tdClearContext, MEvent.tdWarnLLM]
    else if llmRelFails then
      [MEvent.tdClearContext, MEvent.tdLLMRelease, MEvent.tdWarnLLM]
    else [MEvent.tdClearContext, MEvent.tdLLMRelease]
   else []) ++
  (if vdevAcq then
    if vdevRelFails then [MEvent.tdVDeviceRelease, MEvent.tdWarnVDevice]
    else [MEvent.tdVDeviceRelease]
   else [])

/-- Outcome of the model-resolution part of `main` (lines 174-199):
`fatal` models `sys.exit(1)`, `quit` models `sys.exit(0)` from the
selection menu, `stuck` models exhausted stdin, `ok` carries the
resolved path and the events so far. -/
inductive ResolveOutcome where
  | fatal (evs : List MEvent)
  | quit (evs : List MEvent)
  | stuck
  | ok (path : String) (evs : List MEvent)
deriving DecidableEq

/-- Lines 174-199 of `main`: `--hef-path` (with the one-shot extension
fallback) bypasses discovery; otherwise discovery, then auto-selection
for a single model or the menu.  `existing` is the set of paths for
which `Path(...).exists()` holds; an empty `--hef-path` string is falsy
in Python and so counts as absent. -/
def resolvePhase (hefArg : Option String) (existing : List String)
    (modelsDir : Option (List String)) (menuInputs : List String) :
    ResolveOutcome :=
  let argStr := hefArg.getD ""
  if argStr ≠ "" then
    if argStr ∈ existing then ResolveOutcome.ok argStr []
    else if (argStr ++ HAILO_FILE_EXTENSION) ∈ existing then
      ResolveOutcome.ok (argStr ++ HAILO_FILE_EXTENSION) []
    else ResolveOutcome.fatal [MEvent.errModelNotFound]
  else
    match get_downloaded_llm_models modelsDir with
    | [] => ResolveOutcome.fatal [MEvent.errNoModels]
    | [m] => ResolveOutcome.ok m [MEvent.autoSelected m]
    | models =>
      match select_model models menuInputs with
      | none => ResolveOutcome.stuck
      | some SelOutcome.exit0 => ResolveOutcome.quit [MEvent.menuShown]
      | some (SelOutcome.picked m) =>
        ResolveOutcome.ok m [MEvent.menuShown, MEvent.pickedFromMenu m]

/-- The environment and runtime outcomes `main` runs against. -/
structure MainCfg where
  hefArg : Option String
  existing : List String
  modelsDir : Option (List String)
  menuInputs : List String
  vdevOk : Bool
  llmOk : Bool
  chatRaises : Bool
  clearFails : Bool
  llmRelFails : Bool
  vdevRelFails : Bool

/-- Model of `main` (lines 156-234): resolution, then the `try` block acquiring
the device handle and the model handle, the chat loop, the `except`
(exit code 1) and the `finally` teardown.  Result: `some (code, events)`
= the process exits with `code`; `none` = blocked on exhausted stdin. -/
def mainRun (cfg : MainCfg) : Option (Nat × List MEvent) :=
  match resolvePhase cfg.hefArg cfg.existing cfg.modelsDir cfg.menuInputs with
  | ResolveOutcome.stuck => none
  | ResolveOutcome.fatal evs => some (1, evs)
  | ResolveOutcome.quit evs => some (0, evs)
  | ResolveOutcome.ok _ evs =>
    if cfg.vdevOk then
      if cfg.llmOk then
        if cfg.chatRaises then
          some (1, evs ++ [MEvent.bootVDevice, MEvent.bootLLM,
            MEvent.chatStarted, MEvent.errMain] ++
            teardown true true cfg.clearFails cfg.llmRelFails cfg.vdevRelFails)
        else
          some (0, evs ++ [MEvent.bootVDevice, MEvent.bootLLM,
            MEvent.chatStarted] ++
            teardown true true cfg.clearFails cfg.llmRelFails cfg.vdevRelFails)
      else
        some (1, evs ++ [MEvent.bootVDevice, MEvent.bootLLM, MEvent.errMain] ++
          teardown false true cfg.clearFails cfg.llmRelFails cfg.vdevRelFails)
    else
      some (1, evs ++ [MEvent.bootVDevice, MEvent.errMain] ++
        teardown false false cfg.clearFails cfg.llmRelFails cfg.vdevRelFails)

/-! ## Helper lemmas -/

instance : IsTotal String stemKeyLe :=
  ⟨fun a b => le_total (stemKey a) (stemKey b)⟩

instance : IsTrans String stemKeyLe :=
  ⟨fun _ _ _ h1 h2 => le_trans h1 h2⟩

/-- The map `Char.toLower` sends a character to a target with code below 97 only
if it was already that character. -/
theorem charToLower_eq_low {c d : Char} (hd : d.toNat < 97)
    (h : Char.toLower c = d) : c = d := by
  simp only [Char.toLower] at h
  split at h
  · rename_i hc
    obtain ⟨h1, h2⟩ := hc
    have ha := Char.ofNat_toNat c
    generalize hg : c.toNat = n at h1 h2 h ha
    interval_cases n <;> exact absurd hd (by rw [← h]; decide)
  · exact h

/-- The map `Char.toLower` hits `q` only from `q` or `Q`. -/
theorem charToLower_eq_q {c : Char} (h : Char.toLower c = 'q') :
    c = 'q' ∨ c = 'Q' := by
  simp only [Char.toLower] at h
  split at h
  · rename_i hc
    obtain ⟨h1, h2⟩ := hc
    have ha := Char.ofNat_toNat c
    generalize hg : c.toNat = n at h1 h2 h ha
    interval_cases n <;>
      first
      | exact absurd h (by decide)
      | (right; rw [← ha])
  · exact Or.inl h

/-- A string lowercasing to `"q"` is `"q"` or `"Q"`. -/
theorem pyLower_eq_q {c : String} (h : pyLower c = "q") :
    c = "q" ∨ c = "Q" := by
  have hd : c.data.map Char.toLower = ['q'] := congrArg String.data h
  match hc : c.data with
  | [] => rw [hc] at hd; simp at hd
  | [a] =>
    rw [hc] at hd
    simp only [List.map_cons, List.map_nil, List.cons.injEq, and_true] at hd
    rcases charToLower_eq_q hd with h1 | h1
    · left
      apply String.ext
      simp [hc, h1]
    · right
      apply String.ext
      simp [hc, h1]
  | a :: b :: rest =>
    rw [hc] at hd
    simp at hd

/-- A string that `int(...)` parses never lowercases to the quit token. -/
theorem pyParseInt_ne_q {c : String} {n : Int} (h : pyParseInt c = some n) :
    pyLower c ≠ "q" := by
  intro hq
  rcases pyLower_eq_q hq with h1 | h1
  · subst h1
    rw [(by decide : pyParseInt "q" = (none : Option Int))] at h
    exact Option.noConfusion h
  · subst h1
    rw [(by decide : pyParseInt "Q" = (none : Option Int))] at h
    exact Option.noConfusion h

/-! ## C4 — model locator -/

/-- C4: for every state of the models directory,
`get_downloaded_llm_models` returns exactly the files with the model
file extension (glob `*<ext>`) whose lowercased stem contains at least
one marker substring, sorted ascending by lowercased stem; a
non-existent directory yields the empty list (the function is total, so
it never raises). -/
theorem spec_c4 : ∀ modelsDir : Option (List String),
    (modelsDir = none → get_downloaded_llm_models modelsDir = []) ∧
    (∀ entries, modelsDir = some entries →
      List.Perm (get_downloaded_llm_models modelsDir)
        ((entries.filter globMatches).filter llmNameMatches) ∧
      List.Pairwise stemKeyLe (get_downloaded_llm_models modelsDir)) := by
  intro modelsDir
  constructor
  · rintro rfl
    rfl
  · rintro entries rfl
    constructor
    · exact List.perm_insertionSort stemKeyLe _
    · exact List.sorted_insertionSort stemKeyLe _

theorem spec_c4_witness :
    get_downloaded_llm_models none = [] ∧
    List.Perm
      (get_downloaded_llm_models
        (some ["B-chat.hef", "a-chat.hef", "x.txt", "plainname.hef", ".chat.hef"]))
      ((["B-chat.hef", "a-chat.hef", "x.txt", "plainname.hef",
          ".chat.hef"].filter globMatches).filter llmNameMatches) ∧
    List.Pairwise stemKeyLe
      (get_downloaded_llm_models
        (some ["B-chat.hef", "a-chat.hef", "x.txt", "plainname.hef", ".chat.hef"])) :=
  ⟨(spec_c4 none).1 rfl,
   ((spec_c4 _).2 ["B-chat.hef", "a-chat.hef", "x.txt", "plainname.hef",
      ".chat.hef"] rfl).1,
   ((spec_c4 _).2 ["B-chat.hef", "a-chat.hef", "x.txt", "plainname.hef",
      ".chat.hef"] rfl).2⟩

/-! ## C5 — model selector -/

/-- C5: in `select_model`, a quit token (case-insensitive `q`, after
stripping) immediately yields the clean-exit outcome, before any index
can be returned; a non-numeric or out-of-range line leaves the loop
exactly where it was on the remaining input (no retry limit — the loop
state is just the remaining input); an integer input `n` with
`1 ≤ n ≤ length` returns the `n`-th model (1-based). -/
theorem spec_c5 : ∀ (models : List String) (inp : String) (rest : List String),
    (pyLower (pyStrip inp) = "q" →
      select_model models (inp :: rest) = some SelOutcome.exit0) ∧
    (pyLower (pyStrip inp) ≠ "q" →
      (pyParseInt (pyStrip inp) = none ∨
        ∃ n : Int, pyParseInt (pyStrip inp) = some n ∧
          (n < 1 ∨ (models.length : Int) < n)) →
      select_model models (inp :: rest) = select_model models rest) ∧
    (∀ n : Int, pyParseInt (pyStrip inp) = some n →
      1 ≤ n → n ≤ (models.length : Int) →
      select_model models (inp :: rest) =
        some (SelOutcome.picked (models.getD (n - 1).toNat ""))) := by
  intro models inp rest
  refine ⟨?_, ?_, ?_⟩
  · intro hq
    simp only [select_model]
    rw [if_pos hq]
  · intro hq hbad
    simp only [select_model]
    rw [if_neg hq]
    rcases hbad with hnone | ⟨n, hn, hrange⟩
    · rw [hnone]
    · rw [hn]
      show (if 0 ≤ n - 1 ∧ n - 1 < (models.length : Int) then
          some (SelOutcome.picked (models.getD (n - 1).toNat ""))
        else select_model models rest) = select_model models rest
      rw [if_neg (by omega)]
  · intro n hn h1 h2
    simp only [select_model]
    rw [if_neg (pyParseInt_ne_q hn), hn]
    show (if 0 ≤ n - 1 ∧ n - 1 < (models.length : Int) then
        some (SelOutcome.picked (models.getD (n - 1).toNat ""))
      else select_model models rest) =
      some (SelOutcome.picked (models.getD (n - 1).toNat ""))
    rw [if_pos (by omega)]

theorem spec_c5_witness :
    select_model ["alpha.hef", "beta.hef"] [" Q ", "2"] = some SelOutcome.exit0 ∧
    select_model ["alpha.hef", "beta.hef"] ["seven", "2"] =
      select_model ["alpha.hef", "beta.hef"] ["2"] ∧
    select_model ["alpha.hef", "beta.hef"] ["0", "2"] =
      select_model ["alpha.hef", "beta.hef"] ["2"] ∧
    select_model ["alpha.hef", "beta.hef"] ["2"] =
      some (SelOutcome.picked "beta.hef") := by
  refine ⟨(spec_c5 _ " Q " _).1 (by decide), ?_, ?_, ?_⟩
  · exact (spec_c5 _ "seven" _).2.1 (by decide) (Or.inl (by decide))
  · exact (spec_c5 _ "0" _).2.1 (by decide)
      (Or.inr ⟨0, by decide, by omega⟩)
  · have h := (spec_c5 ["alpha.hef", "beta.hef"] "2" []).2.2 2
      (by decide) (by omega) (by decide)
    simpa using h

/-! ## C9 — single-model auto-selection -/

/-- C9: when discovery yields exactly one model, `main` selects it
automatically (reporting the choice) and the selection menu is never
shown. -/
theorem spec_c9 : ∀ (existing : List String) (modelsDir : Option (List String))
    (menuInputs : List String) (m : String),
    get_downloaded_llm_models modelsDir = [m] →
    resolvePhase none existing modelsDir menuInputs =
      ResolveOutcome.ok m [MEvent.autoSelected m] ∧
    MEvent.menuShown ∉ [MEvent.autoSelected m] := by
  intro existing modelsDir menuInputs m hm
  constructor
  · simp only [resolvePhase, Option.getD_none]
    rw [if_neg (by simp)]
    rw [hm]
  · simp

theorem spec_c9_witness :
    resolvePhase none [] (some ["Qwen2-Instruct.hef"]) [] =
      ResolveOutcome.ok "Qwen2-Instruct.hef"
        [MEvent.autoSelected "Qwen2-Instruct.hef"] ∧
    MEvent.menuShown ∉ [MEvent.autoSelected "Qwen2-Instruct.hef"] :=
  spec_c9 [] (some ["Qwen2-Instruct.hef"]) [] "Qwen2-Instruct.hef" (by decide)

/-! ## C2 — teardown ordering -/

/-- C2: when both handles were acquired, the guaranteed-execution block
attempts context-reset, model release, device release, in that order;
each wrapper logs a warning on failure, a model-release failure is
warned about and still followed by the device release, a context-reset
failure likewise does not prevent the device release, the device release
is attempted for every combination of failures, and the whole teardown
runs even when the chat loop raised. -/
theorem spec_c2 :
    (teardown true true false false false =
      [MEvent.tdClearContext, MEvent.tdLLMRelease, MEvent.tdVDeviceRelease]) ∧
    (∀ cf rf vf, MEvent.tdVDeviceRelease ∈ teardown true true cf rf vf) ∧
    (∀ vf, teardown true true false true vf =
      [MEvent.tdClearContext, MEvent.tdLLMRelease, MEvent.tdWarnLLM] ++
      (if vf then [MEvent.tdVDeviceRelease, MEvent.tdWarnVDevice]
       else [MEvent.tdVDeviceRelease])) ∧
    (∀ rf vf, teardown true true true rf vf =
      [MEvent.tdClearContext, MEvent.tdWarnLLM] ++
      (if vf then [MEvent.tdVDeviceRelease, MEvent.tdWarnVDevice]
       else [MEvent.tdVDeviceRelease])) ∧
    (∀ (p : String) (ex : List String) (cf rf vf : Bool),
      p ≠ "" → p ∈ ex →
      mainRun ⟨some p, ex, none, [], true, true, true, cf, rf, vf⟩ =
        some (1, [MEvent.bootVDevice, MEvent.bootLLM, MEvent.chatStarted,
          MEvent.errMain] ++ teardown true true cf rf vf)) := by
  refine ⟨by decide, by decide, by decide, by decide, ?_⟩
  intro p ex cf rf vf hp hex
  simp only [mainRun, resolvePhase, Option.getD_some]
  rw [if_pos hp, if_pos hex]
  simp

theorem spec_c2_witness :
    MEvent.tdVDeviceRelease ∈ teardown true true true true false ∧
    mainRun ⟨some "m.hef", ["m.hef"], none, [], true, true, true,
        false, true, false⟩ =
      some (1, [MEvent.bootVDevice, MEvent.bootLLM, MEvent.chatStarted,
        MEvent.errMain] ++ teardown true true false true false) :=
  ⟨spec_c2.2.1 true true false,
   spec_c2.2.2.2.2 "m.hef" ["m.hef"] false true false (by decide) (by decide)⟩

/-! ## C8 — response post-processing -/

/-- The function `splitHead` returns a prefix of its input. -/
theorem splitHead_front (sub l : List Char) :
    List.IsPrefix (splitHead sub l) l := by
  induction l with
  | nil => simp [splitHead]
  | cons c cs ih =>
    simp only [splitHead]
    split
    · exact List.nil_prefix
    · obtain ⟨t, ht⟩ := ih
      exact ⟨t, by rw [List.cons_append, ht]⟩

/-- The function `splitHead` cuts no later than any occurrence of the separator. -/
theorem splitHead_min (sub l : List Char) :
    ∀ j, sub.isPrefixOf (l.drop j) = true → (splitHead sub l).length ≤ j := by
  induction l with
  | nil => intro j _; simp [splitHead]
  | cons c cs ih =>
    intro j h
    simp only [splitHead]
    split
    · simp
    · rename_i hnp
      cases j with
      | zero =>
        rw [List.drop_zero] at h
        exact absurd h hnp
      | succ j =>
        rw [List.drop_succ_cons] at h
        simpa using Nat.succ_le_succ (ih j h)

/-- The function `splitHead` either keeps the whole text or cuts at an occurrence of
the separator. -/
theorem splitHead_breakpoint (sub l : List Char) :
    splitHead sub l = l ∨
    sub.isPrefixOf (l.drop (splitHead sub l).length) = true := by
  induction l with
  | nil => left; rfl
  | cons c cs ih =>
    simp only [splitHead]
    split
    · rename_i hp
      right
      simpa using hp
    · rcases ih with h | h
      · left; rw [h]
      · right
        simpa [List.drop_succ_cons] using h

/-- The test `subOccurs` holds exactly when the separator occurs at some offset. -/
theorem subOccurs_iff (sub l : List Char) :
    subOccurs sub l = true ↔ ∃ j, sub.isPrefixOf (l.drop j) = true := by
  induction l with
  | nil =>
    simp only [subOccurs, List.drop_nil]
    cases sub <;> simp [List.isPrefixOf, List.isEmpty]
  | cons c cs ih =>
    simp only [subOccurs, Bool.or_eq_true]
    constructor
    · rintro (h | h)
      · exact ⟨0, by simpa using h⟩
      · obtain ⟨j, hj⟩ := ih.mp h
        exact ⟨j + 1, by simpa [List.drop_succ_cons] using hj⟩
    · rintro ⟨j, hj⟩
      cases j with
      | zero => left; simpa using hj
      | succ j => right; exact ih.mpr ⟨j, by simpa [List.drop_succ_cons] using hj⟩

/-- C8: the generated text is truncated at the first occurrence of the
trailing-metadata marker — the kept text is a prefix of the response, no
occurrence of the marker starts inside it, and it is either the whole
response (in particular whenever the marker does not occur) or is
followed immediately by the marker; the truncated text is exactly what
the loop prints and appends as the assistant turn. -/
theorem spec_c8 : ∀ r : String,
    List.IsPrefix (cleanResponse r).data r.data ∧
    (∀ j : Nat, metadataMarker.data.isPrefixOf (r.data.drop j) = true →
      (cleanResponse r).data.length ≤ j) ∧
    (cleanResponse r = r ∨
      metadataMarker.data.isPrefixOf
        (r.data.drop (cleanResponse r).data.length) = true) ∧
    (strContains r metadataMarker = false → cleanResponse r = r) ∧
    (∀ (st : ChatState) (s u : String), classify s = Cmd.utter u →
      chatStep st (ChatInput.line s (some r)) =
        (some ⟨st.systemPrompt,
          st.conversation ++ [userTurn u] ++ [assistantTurn (cleanResponse r)]⟩,
         [ChatEv.generateCall (st.conversation ++ [userTurn u]),
          ChatEv.assistantPrinted (cleanResponse r)])) := by
  intro r
  refine ⟨splitHead_front _ _, fun j h => splitHead_min _ _ j h, ?_, ?_, ?_⟩
  · rcases splitHead_breakpoint metadataMarker.data r.data with h | h
    · left; exact String.ext h
    · right; exact h
  · intro hnc
    rcases splitHead_breakpoint metadataMarker.data r.data with h | h
    · exact String.ext h
    · exfalso
      have hocc : subOccurs metadataMarker.data r.data = true :=
        (subOccurs_iff _ _).mpr ⟨_, h⟩
      simp only [strContains] at hnc
      rw [hnc] at hocc
      exact Bool.noConfusion hocc
  · intro st s u hcu
    show stepCmd st (classify s) (some r) = _
    rw [hcu]
    rfl

theorem spec_c8_witness :
    (cleanResponse ("A" ++ metadataMarker ++ "B")).data.length ≤ 1 ∧
    cleanResponse "plain answer" = "plain answer" ∧
    chatStep (initChat "p") (ChatInput.line "hi" (some "ok")) =
      (some ⟨"p",
        [systemTurn "p"] ++ [userTurn "hi"] ++ [assistantTurn (cleanResponse "ok")]⟩,
       [ChatEv.generateCall ([systemTurn "p"] ++ [userTurn "hi"]),
        ChatEv.assistantPrinted (cleanResponse "ok")]) :=
  ⟨(spec_c8 ("A" ++ metadataMarker ++ "B")).2.1 1 (by decide),
   (spec_c8 "plain answer").2.2.2.1 (by decide),
   (spec_c8 "ok").2.2.2.2 (initChat "p") "hi" "hi" (by decide)⟩

/-! ## C10 — bare `/system` is an ordinary utterance -/

/-- C10: the input line consisting of exactly `/system` (no trailing
space, no argument) is not recognized as the system-prompt command and
produces no usage hint: it is classified as an ordinary user utterance,
appended to the transcript as a user turn, and forwarded to the
generation operation. -/
theorem spec_c10 : ∀ st : ChatState,
    classify "/system" = Cmd.utter "/system" ∧
    chatStep st (ChatInput.line "/system" none) =
      (some ⟨st.systemPrompt, st.conversation ++ [userTurn "/system"]⟩,
       [ChatEv.generateCall (st.conversation ++ [userTurn "/system"]),
        ChatEv.genErrorReported]) ∧
    (∀ r, chatStep st (ChatInput.line "/system" (some r)) =
      (some ⟨st.systemPrompt,
        st.conversation ++ [userTurn "/system"] ++
          [assistantTurn (cleanResponse r)]⟩,
       [ChatEv.generateCall (st.conversation ++ [userTurn "/system"]),
        ChatEv.assistantPrinted (cleanResponse r)])) ∧
    ChatEv.usageHint ∉ (chatStep st (ChatInput.line "/system" none)).2 := by
  intro st
  have hc : classify "/system" = Cmd.utter "/system" := by decide
  refine ⟨hc, ?_, ?_, ?_⟩
  · show stepCmd st (classify "/system") none = _
    rw [hc]
    rfl
  · intro r
    show stepCmd st (classify "/system") (some r) = _
    rw [hc]
    rfl
  · show ChatEv.usageHint ∉ (stepCmd st (classify "/system") none).2
    rw [hc]
    simp [stepCmd]

/-! ## C3 — generation failure handling -/

/-- C3: when the generation call raises on a user utterance, the loop
reports the error and continues: the iteration returns to the loop with
the just-appended user turn kept and no assistant turn added, and the
next input is processed from that state. -/
theorem spec_c3 : ∀ (st : ChatState) (s u : String) (rest : List ChatInput),
    classify s = Cmd.utter u →
    chatStep st (ChatInput.line s none) =
      (some ⟨st.systemPrompt, st.conversation ++ [userTurn u]⟩,
       [ChatEv.generateCall (st.conversation ++ [userTurn u]),
        ChatEv.genErrorReported]) ∧
    chatRun st (ChatInput.line s none :: rest) =
      chatRun ⟨st.systemPrompt, st.conversation ++ [userTurn u]⟩ rest := by
  intro st s u rest hcu
  have h1 : chatStep st (ChatInput.line s none) =
      (some ⟨st.systemPrompt, st.conversation ++ [userTurn u]⟩,
       [ChatEv.generateCall (st.conversation ++ [userTurn u]),
        ChatEv.genErrorReported]) := by
    show stepCmd st (classify s) none = _
    rw [hcu]
    rfl
  refine ⟨h1, ?_⟩
  simp only [chatRun]
  rw [h1]

theorem spec_c3_witness :
    chatStep (initChat "p") (ChatInput.line "boom" none) =
      (some ⟨"p", [systemTurn "p"] ++ [userTurn "boom"]⟩,
       [ChatEv.generateCall ([systemTurn "p"] ++ [userTurn "boom"]),
        ChatEv.genErrorReported]) ∧
    chatRun (initChat "p") [ChatInput.line "boom" none] =
      chatRun ⟨"p", [systemTurn "p"] ++ [userTurn "boom"]⟩ [] :=
  spec_c3 (initChat "p") "boom" "boom" [] (by decide)

/-! ## C1 — transcript invariant -/

/-- A singleton system turn satisfies the transcript invariant. -/
theorem transcriptInv_init (p : String) : transcriptInv [systemTurn p] := by
  constructor
  · rfl
  · exact ⟨systemTurn p, [], rfl, rfl⟩

/-- Appending a non-system turn preserves the transcript invariant. -/
theorem transcriptInv_append (conv : List Turn) (x : Turn)
    (hx : (x.role == Role.system) = false) (hinv : transcriptInv conv) :
    transcriptInv (conv ++ [x]) := by
  obtain ⟨hcount, t, ts, rfl, hrole⟩ := hinv
  refine ⟨?_, t, ts ++ [x], by simp, hrole⟩
  rw [List.countP_append, hcount]
  simp [List.countP_cons, hx]

/-- One step of the loop body preserves the transcript invariant. -/
theorem inv_stepCmd (st : ChatState) (c : Cmd) (g : Option String)
    (st2 : ChatState) (evs : List ChatEv)
    (hinv : transcriptInv st.conversation)
    (h : stepCmd st c g = (some st2, evs)) :
    transcriptInv st2.conversation := by
  cases c with
  | empty =>
    simp only [stepCmd, Prod.mk.injEq, Option.some.injEq] at h
    rw [← h.1]
    exact hinv
  | quit => simp only [stepCmd, Prod.mk.injEq] at h; exact absurd h.1 (by simp)
  | clear =>
    simp only [stepCmd, Prod.mk.injEq, Option.some.injEq] at h
    rw [← h.1]
    exact transcriptInv_init st.systemPrompt
  | sysSet ns =>
    simp only [stepCmd, Prod.mk.injEq, Option.some.injEq] at h
    rw [← h.1]
    exact transcriptInv_init ns
  | sysHint =>
    simp only [stepCmd, Prod.mk.injEq, Option.some.injEq] at h
    rw [← h.1]
    exact hinv
  | utter u =>
    cases g with
    | some r =>
      simp only [stepCmd, Prod.mk.injEq, Option.some.injEq] at h
      rw [← h.1]
      exact transcriptInv_append _ _ rfl
        (transcriptInv_append _ _ rfl hinv)
    | none =>
      simp only [stepCmd, Prod.mk.injEq, Option.some.injEq] at h
      rw [← h.1]
      exact transcriptInv_append _ _ rfl hinv

/-- One loop iteration preserves the transcript invariant. -/
theorem inv_chatStep (st : ChatState) (i : ChatInput) (st2 : ChatState)
    (evs : List ChatEv) (hinv : transcriptInv st.conversation)
    (h : chatStep st i = (some st2, evs)) : transcriptInv st2.conversation := by
  cases i with
  | interrupt =>
    simp only [chatStep, Prod.mk.injEq] at h
    exact absurd h.1 (by simp)
  | line s g => exact inv_stepCmd st (classify s) g st2 evs hinv h

/-- The whole loop preserves the transcript invariant. -/
theorem inv_chatRun (inputs : List ChatInput) :
    ∀ st : ChatState, transcriptInv st.conversation →
      transcriptInv (chatRun st inputs).conversation := by
  induction inputs with
  | nil => intro st h; exact h
  | cons i rest ih =>
    intro st h
    simp only [chatRun]
    rcases hc : chatStep st i with ⟨o, evs⟩
    cases o with
    | none => exact h
    | some st2 => exact ih st2 (inv_chatStep st i st2 evs h hc)

/-- C1: over every sequence of chat-loop inputs the transcript holds
exactly one system turn, placed first; `/clear` and a successful
`/system` replace the transcript with a single fresh system turn rather
than appending a second one. -/
theorem spec_c1 : ∀ (p : String) (inputs : List ChatInput),
    transcriptInv (chatRun (initChat p) inputs).conversation ∧
    (∀ (st : ChatState) (s : String) (gen : Option String),
      classify s = Cmd.clear →
      chatStep st (ChatInput.line s gen) =
        (some ⟨st.systemPrompt, [systemTurn st.systemPrompt]⟩,
         [ChatEv.clearContextCall, ChatEv.confirmCleared])) ∧
    (∀ (st : ChatState) (s ns : String) (gen : Option String),
      classify s = Cmd.sysSet ns →
      chatStep st (ChatInput.line s gen) =
        (some ⟨ns, [systemTurn ns]⟩,
         [ChatEv.clearContextCall, ChatEv.confirmSystem ns])) := by
  intro p inputs
  refine ⟨inv_chatRun inputs (initChat p) (transcriptInv_init p), ?_, ?_⟩
  · intro st s gen hc
    show stepCmd st (classify s) gen = _
    rw [hc]
    rfl
  · intro st s ns gen hc
    show stepCmd st (classify s) gen = _
    rw [hc]
    rfl

theorem spec_c1_witness :
    transcriptInv (chatRun (initChat "p")
      [ChatInput.line "hello" (some "hi"),
       ChatInput.line "/clear" none]).conversation ∧
    chatStep (initChat "p") (ChatInput.line " /CLEAR " none) =
      (some ⟨"p", [systemTurn "p"]⟩,
       [ChatEv.clearContextCall, ChatEv.confirmCleared]) ∧
    chatStep (initChat "p") (ChatInput.line "/system be brief" none) =
      (some ⟨"be brief", [systemTurn "be brief"]⟩,
       [ChatEv.clearContextCall, ChatEv.confirmSystem "be brief"]) :=
  ⟨(spec_c1 "p" [ChatInput.line "hello" (some "hi"),
      ChatInput.line "/clear" none]).1,
   (spec_c1 "p" []).2.1 (initChat "p") " /CLEAR " none (by decide),
   (spec_c1 "p" []).2.2 (initChat "p") "/system be brief" "be brief" none
     (by decide)⟩

/-! ## C7 — `/system` with whitespace-only text -/

/-- The last character of a stripped string is never whitespace. -/
theorem pyStrip_getLast_not_space (s : String) (c : Char)
    (h : (pyStrip s).data.getLast? = some c) : isSpaceChar c = false := by
  have hne : (pyStrip s).data ≠ [] := by
    intro h0
    rw [h0] at h
    exact Option.noConfusion h
  have hlast := List.rdropWhile_last_not isSpaceChar
    (s.data.dropWhile isSpaceChar) hne
  rw [List.getLast?_eq_getLast _ hne] at h
  have hc : c = (pyStrip s).data.getLast hne := (Option.some.inj h).symm
  rw [hc]
  exact Bool.not_eq_true _ ▸ eq_false_of_ne_true hlast

/-- A list whose last element is not whitespace strips to a non-empty
string. -/
theorem pyStrip_ne_nil_of_last (l : List Char) (c : Char)
    (hl : l.getLast? = some c) (hc : isSpaceChar c = false) :
    (pyStrip ⟨l⟩).data ≠ [] := by
  have hlne : l ≠ [] := by
    intro h0
    rw [h0] at hl
    exact Option.noConfusion hl
  have hmem : c ∈ l := by
    rw [List.getLast?_eq_getLast _ hlne] at hl
    rw [Option.some.inj hl.symm]
    exact List.getLast_mem hlne
  have h1 : l.dropWhile isSpaceChar ≠ [] := by
    rw [Ne, List.dropWhile_eq_nil_iff]
    push_neg
    exact ⟨c, hmem, by simp [hc]⟩
  have h2 : (l.dropWhile isSpaceChar).getLast? = some c := by
    obtain ⟨pre, hpre⟩ := List.dropWhile_suffix (l := l) isSpaceChar
    have h3 := List.getLast?_append_of_ne_nil pre h1
    rw [hpre] at h3
    rw [← h3]
    exact hl
  have hmem2 : c ∈ l.dropWhile isSpaceChar := by
    rw [List.getLast?_eq_getLast _ h1] at h2
    rw [Option.some.inj h2.symm]
    exact List.getLast_mem h1
  show List.rdropWhile isSpaceChar (l.dropWhile isSpaceChar) ≠ []
  rw [Ne, List.rdropWhile_eq_nil_iff]
  push_neg
  exact ⟨c, hmem2, by simp [hc]⟩

/-- The usage-hint branch of the chat loop is unreachable: no input line
ever classifies as `Cmd.sysHint`.  The outer `strip` removes trailing
whitespace, so any stripped line whose lowercase form starts with
`/system ` has a non-whitespace character after the prefix, and the
argument never strips to empty. -/
theorem classify_ne_sysHint : ∀ s : String, classify s ≠ Cmd.sysHint := by
  intro s h
  simp only [classify] at h
  split at h
  · exact Cmd.noConfusion h
  · split at h
    · exact Cmd.noConfusion h
    · split at h
      · exact Cmd.noConfusion h
      · split at h
        · rename_i hne hq hc hsw
          split at h
          · rename_i hns
            -- contradiction: the argument cannot strip to empty
            have hsw2 : List.IsPrefix "/system ".data (pyLower (pyStrip s)).data := by
              rw [← List.isPrefixOf_iff_prefix]
              exact hsw
            obtain ⟨t, ht⟩ := hsw2
            have hlu : (pyStrip s).data ≠ [] := by
              intro h0
              exact hne (String.ext (by rw [h0]))
            have hc0 := List.getLast?_eq_getLast (pyStrip s).data hlu
            set c0 := (pyStrip s).data.getLast hlu with hc0def
            have hc0ns : isSpaceChar c0 = false :=
              pyStrip_getLast_not_space s c0 hc0
            cases t with
            | nil =>
              rw [List.append_nil] at ht
              have hmap : ((pyLower (pyStrip s)).data).getLast? = some ' ' := by
                rw [← ht]; decide
              have hmap2 : ((pyStrip s).data.map Char.toLower).getLast? =
                  some ' ' := hmap
              rw [List.getLast?_map, hc0] at hmap2
              have h4 : Char.toLower c0 = ' ' := Option.some.inj hmap2
              have h5 : c0 = ' ' := charToLower_eq_low (by decide) h4
              rw [h5] at hc0ns
              exact Bool.noConfusion hc0ns
            | cons a t2 =>
              have h9 := congrArg List.length ht
              simp only [List.length_append, List.length_cons,
                List.length_nil] at h9
              have h9b : ((pyLower (pyStrip s)).data).length =
                  (pyStrip s).data.length := by
                simp [pyLower]
              rw [h9b] at h9
              have hd8 : (pyStrip s).data.drop 8 ≠ [] := by
                rw [Ne, List.drop_eq_nil_iff]
                omega
              have hdlast : ((pyStrip s).data.drop 8).getLast? = some c0 := by
                have h3 := List.getLast?_append_of_ne_nil
                  ((pyStrip s).data.take 8) hd8
                rw [List.take_append_drop] at h3
                rw [← h3]
                exact hc0
              have := pyStrip_ne_nil_of_last ((pyStrip s).data.drop 8) c0
                hdlast hc0ns
              exact this (congrArg String.data hns)
          · exact Cmd.noConfusion h
        · exact Cmd.noConfusion h

/-- Stripping `/system` followed by whitespace yields `/system`. -/
theorem pyStrip_system_ws (w : String)
    (hw : ∀ c ∈ w.data, isSpaceChar c = true) :
    pyStrip ("/system" ++ w) = "/system" := by
  apply String.ext
  show List.rdropWhile isSpaceChar
    ((("/system" ++ w)).data.dropWhile isSpaceChar) = "/system".data
  rw [String.data_append]
  rw [show "/system".data = ['/', 's', 'y', 's', 't', 'e', 'm'] from by decide]
  have hstep : List.dropWhile isSpaceChar
      ((['/', 's', 'y', 's', 't', 'e', 'm'] : List Char) ++ w.data) =
      ['/', 's', 'y', 's', 't', 'e', 'm'] ++ w.data := by
    show List.dropWhile isSpaceChar
      ('/' :: (['s', 'y', 's', 't', 'e', 'm'] ++ w.data)) = _
    rw [List.dropWhile_cons, if_neg (by decide)]
    rfl
  rw [hstep, List.rdropWhile, List.reverse_append]
  rw [List.dropWhile_append_of_pos
    (fun a ha => by rw [List.mem_reverse] at ha; simp [hw a ha])]
  rw [show (['/', 's', 'y', 's', 't', 'e', 'm'] : List Char).reverse =
    ['m', 'e', 't', 's', 'y', 's', '/'] from by decide]
  rw [show List.dropWhile isSpaceChar
    (['m', 'e', 't', 's', 'y', 's', '/'] : List Char) =
    ['m', 'e', 't', 's', 'y', 's', '/'] from by decide]
  decide

/-- C7 counterexample: on the concrete input line `/system ` (text is a
single space, so empty after trimming) the loop does NOT print a usage
hint and DOES act — the line strips to `/system`, is appended as a user
turn and is sent to generation. -/
theorem spec_c7_counterexample :
    classify "/system " = Cmd.utter "/system" ∧
    chatStep (initChat "p") (ChatInput.line "/system " (some "ok")) =
      (some ⟨"p", [systemTurn "p", userTurn "/system", assistantTurn "ok"]⟩,
       [ChatEv.generateCall [systemTurn "p", userTurn "/system"],
        ChatEv.assistantPrinted "ok"]) ∧
    ¬(chatStep (initChat "p") (ChatInput.line "/system " (some "ok")) =
      (some (initChat "p"), [ChatEv.usageHint])) := by
  refine ⟨by decide, by decide, by decide⟩

/-- C7 (amended): an input line of the form `/system<whitespace>` is
stripped to exactly `/system` before dispatch and is therefore treated
as an ordinary user utterance — identical to the bare `/system` line —
with no usage hint printed and no system-prompt change; more strongly,
the usage-hint branch is unreachable for every input. -/
theorem spec_c7 :
    (∀ w : String, (∀ c ∈ w.data, isSpaceChar c = true) →
      classify ("/system" ++ w) = Cmd.utter "/system") ∧
    (∀ s : String, classify s ≠ Cmd.sysHint) ∧
    (∀ (st : ChatState) (gen : Option String) (w : String),
      (∀ c ∈ w.data, isSpaceChar c = true) →
      chatStep st (ChatInput.line ("/system" ++ w) gen) =
        chatStep st (ChatInput.line "/system" gen) ∧
      ChatEv.usageHint ∉ (chatStep st (ChatInput.line ("/system" ++ w) gen)).2) := by
  have hcl : ∀ w : String, (∀ c ∈ w.data, isSpaceChar c = true) →
      classify ("/system" ++ w) = Cmd.utter "/system" := by
    intro w hw
    have hs := pyStrip_system_ws w hw
    simp only [classify, hs]
    decide
  refine ⟨hcl, classify_ne_sysHint, ?_⟩
  intro st gen w hw
  constructor
  · show stepCmd st (classify ("/system" ++ w)) gen =
      stepCmd st (classify "/system") gen
    rw [hcl w hw, show classify "/system" = Cmd.utter "/system" from by decide]
  · show ChatEv.usageHint ∉ (stepCmd st (classify ("/system" ++ w)) gen).2
    rw [hcl w hw]
    cases gen <;> simp [stepCmd]

theorem spec_c7_witness :
    classify ("/system" ++ "   ") = Cmd.utter "/system" ∧
    chatStep (initChat "p") (ChatInput.line ("/system" ++ " ") (some "ok")) =
      chatStep (initChat "p") (ChatInput.line "/system" (some "ok")) ∧
    classify "hello" ≠ Cmd.sysHint :=
  ⟨spec_c7.1 "   " (by decide),
   (spec_c7.2.2 (initChat "p") (some "ok") " " (by decide)).1,
   spec_c7.2.1 "hello"⟩

/-! ## C6 — exit codes of `main` -/

/-- Teardown events never include the chat-started marker. -/
theorem teardown_no_chat : ∀ b1 b2 b3 b4 b5,
    MEvent.chatStarted ∉ teardown b1 b2 b3 b4 b5 := by decide

/-- The resolution phase ends fatally exactly when no model file is
discovered (and no explicit path was given), or the explicit path fails
to resolve even with the extension appended. -/
theorem resolve_fatal_iff (a : Option String) (e : List String)
    (d : Option (List String)) (i : List String) :
    (∃ evs, resolvePhase a e d i = ResolveOutcome.fatal evs) ↔
    ((a.getD "" = "" ∧ get_downloaded_llm_models d = []) ∨
     (a.getD "" ≠ "" ∧ a.getD "" ∉ e ∧
       (a.getD "" ++ HAILO_FILE_EXTENSION) ∉ e)) := by
  by_cases ha : a.getD "" = ""
  · simp only [resolvePhase]
    rw [if_neg (by simp [ha])]
    rcases hm : get_downloaded_llm_models d with _ | ⟨m, ms⟩
    · simp [ha, hm]
    · rcases ms with _ | ⟨m2, ms2⟩
      · simp [ha, hm]
      · rcases hs : select_model (m :: m2 :: ms2) i with _ | s
        · simp [ha, hm, hs]
        · cases s <;> simp [ha, hm, hs]
  · simp only [resolvePhase]
    rw [if_pos ha]
    by_cases h1 : a.getD "" ∈ e
    · rw [if_pos h1]
      simp [ha, h1]
    · rw [if_neg h1]
      by_cases h2 : (a.getD "" ++ HAILO_FILE_EXTENSION) ∈ e
      · rw [if_pos h2]
        simp [ha, h1, h2]
      · rw [if_neg h2]
        simp [ha, h1, h2]

/-- Every event list the resolution phase can produce is free of the
chat-started marker. -/
theorem resolve_cases (a : Option String) (e : List String)
    (d : Option (List String)) (i : List String) :
    (∃ evs, resolvePhase a e d i = ResolveOutcome.fatal evs ∧
      MEvent.chatStarted ∉ evs) ∨
    (∃ evs, resolvePhase a e d i = ResolveOutcome.quit evs) ∨
    resolvePhase a e d i = ResolveOutcome.stuck ∨
    (∃ p evs, resolvePhase a e d i = ResolveOutcome.ok p evs ∧
      MEvent.chatStarted ∉ evs) := by
  simp only [resolvePhase]
  by_cases ha : a.getD "" ≠ ""
  · rw [if_pos ha]
    by_cases h1 : a.getD "" ∈ e
    · rw [if_pos h1]
      exact Or.inr (Or.inr (Or.inr ⟨_, _, rfl, by simp⟩))
    · rw [if_neg h1]
      by_cases h2 : (a.getD "" ++ HAILO_FILE_EXTENSION) ∈ e
      · rw [if_pos h2]
        exact Or.inr (Or.inr (Or.inr ⟨_, _, rfl, by simp⟩))
      · rw [if_neg h2]
        exact Or.inl ⟨_, rfl, by simp⟩
  · rw [if_neg ha]
    rcases hm : get_downloaded_llm_models d with _ | ⟨m, ms⟩
    · exact Or.inl ⟨[MEvent.errNoModels], by simp, by simp⟩
    · rcases ms with _ | ⟨m2, ms2⟩
      · exact Or.inr (Or.inr (Or.inr
          ⟨m, [MEvent.autoSelected m], by simp, by simp⟩))
      · rcases hs : select_model (m :: m2 :: ms2) i with _ | s
        · exact Or.inr (Or.inr (Or.inl (by simp [hs])))
        · cases s with
          | exit0 =>
            exact Or.inr (Or.inl ⟨[MEvent.menuShown], by simp [hs]⟩)
          | picked m3 =>
            exact Or.inr (Or.inr (Or.inr ⟨m3,
              [MEvent.menuShown, MEvent.pickedFromMenu m3],
              by simp [hs], by simp⟩))

theorem resolve_ok_no_chat (a : Option String) (e : List String)
    (d : Option (List String)) (i : List String) (p : String)
    (evs : List MEvent)
    (hr : resolvePhase a e d i = ResolveOutcome.ok p evs) :
    MEvent.chatStarted ∉ evs := by
  rcases resolve_cases a e d i with ⟨e2, hf, -⟩ | ⟨e2, hq⟩ | hs |
    ⟨p2, e2, hok, hnc⟩
  · rw [hr] at hf; exact ResolveOutcome.noConfusion hf
  · rw [hr] at hq; exact ResolveOutcome.noConfusion hq
  · rw [hr] at hs; exact ResolveOutcome.noConfusion hs
  · rw [hr] at hok
    obtain ⟨-, rfl⟩ := ResolveOutcome.ok.inj hok
    exact hnc

theorem resolve_fatal_no_chat (a : Option String) (e : List String)
    (d : Option (List String)) (i : List String) (evs : List MEvent)
    (hr : resolvePhase a e d i = ResolveOutcome.fatal evs) :
    MEvent.chatStarted ∉ evs := by
  rcases resolve_cases a e d i with ⟨e2, hf, hnc⟩ | ⟨e2, hq⟩ | hs |
    ⟨p2, e2, hok, -⟩
  · rw [hr] at hf
    obtain rfl := ResolveOutcome.fatal.inj hf
    exact hnc
  · rw [hr] at hq; exact ResolveOutcome.noConfusion hq
  · rw [hr] at hs; exact ResolveOutcome.noConfusion hs
  · rw [hr] at hok; exact ResolveOutcome.noConfusion hok

/-- C6: the process exits with code 1 before the chat loop starts
exactly when: no candidate models are found and no explicit path was
given; or an explicit path cannot be resolved even after appending the
extension; or model resolution succeeded but device/session
bootstrapping raises.  When resolution and bootstrapping succeed and the
chat loop completes normally (a normal quit), the exit code is 0. -/
theorem spec_c6 : ∀ (hefArg : Option String) (existing : List String)
    (modelsDir : Option (List String)) (menuInputs : List String)
    (vdevOk llmOk chatRaises clearFails llmRelFails vdevRelFails : Bool),
    ((∃ evs, mainRun ⟨hefArg, existing, modelsDir, menuInputs, vdevOk, llmOk,
        chatRaises, clearFails, llmRelFails, vdevRelFails⟩ = some (1, evs) ∧
        MEvent.chatStarted ∉ evs) ↔
      ((hefArg.getD "" = "" ∧ get_downloaded_llm_models modelsDir = []) ∨
       (hefArg.getD "" ≠ "" ∧ hefArg.getD "" ∉ existing ∧
         (hefArg.getD "" ++ HAILO_FILE_EXTENSION) ∉ existing) ∨
       ((∃ p evs, resolvePhase hefArg existing modelsDir menuInputs =
           ResolveOutcome.ok p evs) ∧
         (vdevOk = false ∨ llmOk = false)))) ∧
    ((∃ p evs, resolvePhase hefArg existing modelsDir menuInputs =
        ResolveOutcome.ok p evs) →
      vdevOk = true → llmOk = true → chatRaises = false →
      ∃ evs, mainRun ⟨hefArg, existing, modelsDir, menuInputs, vdevOk, llmOk,
        chatRaises, clearFails, llmRelFails, vdevRelFails⟩ = some (0, evs)) := by
  intro a e d i v lk cr f1 f2 f3
  cases hr : resolvePhase a e d i with
  | fatal evs =>
    refine ⟨⟨fun _ => ?_, fun _ => ?_⟩, ?_⟩
    · rcases (resolve_fatal_iff a e d i).mp ⟨evs, hr⟩ with hA | hB
      · exact Or.inl hA
      · exact Or.inr (Or.inl hB)
    · exact ⟨evs, by simp [mainRun, hr],
        resolve_fatal_no_chat a e d i evs hr⟩
    · rintro ⟨p, evs2, hok⟩
      exact ResolveOutcome.noConfusion hok
  | quit evs =>
    refine ⟨⟨?_, ?_⟩, ?_⟩
    · rintro ⟨evs2, h0, -⟩
      simp [mainRun, hr] at h0
    · rintro (hA | hB | hC)
      · obtain ⟨evs3, hf⟩ := (resolve_fatal_iff a e d i).mpr (Or.inl hA)
        rw [hr] at hf
        exact ResolveOutcome.noConfusion hf
      · obtain ⟨evs3, hf⟩ := (resolve_fatal_iff a e d i).mpr (Or.inr hB)
        rw [hr] at hf
        exact ResolveOutcome.noConfusion hf
      · obtain ⟨⟨p, evs3, hok⟩, -⟩ := hC
        exact ResolveOutcome.noConfusion hok
    · rintro ⟨p, evs2, hok⟩
      exact ResolveOutcome.noConfusion hok
  | stuck =>
    refine ⟨⟨?_, ?_⟩, ?_⟩
    · rintro ⟨evs2, h0, -⟩
      simp [mainRun, hr] at h0
    · rintro (hA | hB | hC)
      · obtain ⟨evs3, hf⟩ := (resolve_fatal_iff a e d i).mpr (Or.inl hA)
        rw [hr] at hf
        exact ResolveOutcome.noConfusion hf
      · obtain ⟨evs3, hf⟩ := (resolve_fatal_iff a e d i).mpr (Or.inr hB)
        rw [hr] at hf
        exact ResolveOutcome.noConfusion hf
      · obtain ⟨⟨p, evs3, hok⟩, -⟩ := hC
        exact ResolveOutcome.noConfusion hok
    · rintro ⟨p, evs2, hok⟩
      exact ResolveOutcome.noConfusion hok
  | ok p evs =>
    have hnc : MEvent.chatStarted ∉ evs := resolve_ok_no_chat a e d i p evs hr
    have hnAB : ¬((a.getD "" = "" ∧ get_downloaded_llm_models d = []) ∨
        (a.getD "" ≠ "" ∧ a.getD "" ∉ e ∧
          (a.getD "" ++ HAILO_FILE_EXTENSION) ∉ e)) := by
      intro hab
      obtain ⟨evs3, hf⟩ := (resolve_fatal_iff a e d i).mpr hab
      rw [hr] at hf
      exact ResolveOutcome.noConfusion hf
    cases v with
    | false =>
      refine ⟨⟨fun _ => ?_, fun _ => ?_⟩, ?_⟩
      · exact Or.inr (Or.inr ⟨⟨p, evs, rfl⟩, Or.inl rfl⟩)
      · refine ⟨evs ++ [MEvent.bootVDevice, MEvent.errMain] ++
          teardown false false f1 f2 f3, by simp [mainRun, hr], ?_⟩
        intro hmem
        simp only [List.mem_append] at hmem
        rcases hmem with (hm | hm) | hm
        · exact hnc hm
        · simp at hm
        · exact teardown_no_chat _ _ _ _ _ hm
      · rintro - hv - -
        exact Bool.noConfusion hv
    | true =>
      cases lk with
      | false =>
        refine ⟨⟨fun _ => ?_, fun _ => ?_⟩, ?_⟩
        · exact Or.inr (Or.inr ⟨⟨p, evs, rfl⟩, Or.inr rfl⟩)
        · refine ⟨evs ++ [MEvent.bootVDevice, MEvent.bootLLM,
            MEvent.errMain] ++ teardown false true f1 f2 f3,
            by simp [mainRun, hr], ?_⟩
          intro hmem
          simp only [List.mem_append] at hmem
          rcases hmem with (hm | hm) | hm
          · exact hnc hm
          · simp at hm
          · exact teardown_no_chat _ _ _ _ _ hm
        · rintro - - hl -
          exact Bool.noConfusion hl
      | true =>
        cases cr with
        | true =>
          refine ⟨⟨?_, ?_⟩, ?_⟩
          · rintro ⟨evs2, h0, hmem⟩
            simp only [mainRun, hr] at h0
            obtain rfl : evs ++ [MEvent.bootVDevice, MEvent.bootLLM,
                MEvent.chatStarted, MEvent.errMain] ++
                teardown true true f1 f2 f3 = evs2 := by
              simpa using h0
            exact (hmem (by simp)).elim
          · rintro (hA | hB | hC)
            · exact absurd (Or.inl hA) hnAB
            · exact absurd (Or.inr hB) hnAB
            · rcases hC.2 with hv | hl
              · exact Bool.noConfusion hv
              · exact Bool.noConfusion hl
          · rintro - - - hcr
            exact Bool.noConfusion hcr
        | false =>
          refine ⟨⟨?_, ?_⟩, ?_⟩
          · rintro ⟨evs2, h0, -⟩
            simp [mainRun, hr] at h0
          · rintro (hA | hB | hC)
            · exact absurd (Or.inl hA) hnAB
            · exact absurd (Or.inr hB) hnAB
            · rcases hC.2 with hv | hl
              · exact Bool.noConfusion hv
              · exact Bool.noConfusion hl
          · rintro - - - -
            exact ⟨evs ++ [MEvent.bootVDevice, MEvent.bootLLM,
              MEvent.chatStarted] ++ teardown true true f1 f2 f3,
              by simp [mainRun, hr]⟩

theorem spec_c6_witness :
    ∃ evs, mainRun ⟨some "m.hef", ["m.hef"], none, [], true, true, false,
      false, false, false⟩ = some (0, evs) :=
  (spec_c6 (some "m.hef") ["m.hef"] none [] true true false
      false false false).2 ⟨"m.hef", [], by decide⟩ rfl rfl rfl

end InteractiveLlmChat
